import Mathlib

/-!
Verification of the ground-truth annotation loader of
`domain_adaptation/hei_chole/evaluation/evaluate_HeiChole.py`
(`HierarchicalEvaluator.load_ground_truth`).

The loader reads a per-video JSON document `{"frames": {<key>: {"instruments":
{name: value, ...}, "actions": {name: value, ...}}, ...}}`, samples the first
frame for debug output, and then, for each frame, parses the string key with
Python `int(...)` and records every instrument/action name whose value is
strictly positive by writing the constant `1` into a nested `defaultdict`.

The embedding below models JSON sub-maps as ordered association lists (Python
dicts preserve insertion order; `json.load` leaves no duplicate keys), numeric
presence values as rationals, and the nested `defaultdict` behaviour
(auto-vivification on `[]` access, in-place update of existing keys, append of
new keys) explicitly.
-/

/-- Strip leading and trailing whitespace from a character list, as Python
`int(str)` ignores surrounding whitespace of its argument. -/
def pyStrip (l : List Char) : List Char :=
  ((l.dropWhile Char.isWhitespace).reverse.dropWhile Char.isWhitespace).reverse

/-- Numeric value of a list of decimal digit characters. -/
def digitsVal (l : List Char) : Nat :=
  l.foldl (fun n c => 10 * n + (c.toNat - 48)) 0

/-- Model of Python `int(s)` on a string: optional sign followed by one or
more decimal digits, surrounding whitespace ignored; `none` models the
`ValueError` raised on any other input (such as `"abc"`).  (Python also
accepts underscores between digits, which no claim exercises.) -/
def pyParseInt (s : String) : Option Int :=
  match pyStrip s.data with
  | [] => none
  | c :: rest =>
    if c = '-' then
      if rest ≠ [] ∧ rest.all Char.isDigit then some (-(digitsVal rest : Int)) else none
    else if c = '+' then
      if rest ≠ [] ∧ rest.all Char.isDigit then some ((digitsVal rest : Int)) else none
    else
      if (c :: rest).all Char.isDigit then some ((digitsVal (c :: rest) : Int)) else none

/-- One frame's record in the JSON document: the `instruments` and `actions`
sub-maps, each an ordered name-to-number map, each possibly absent
(`frame_data.get(..., {})` treats an absent sub-map as empty). -/
structure FrameData where
  instruments : Option (List (String × ℚ))
  actions : Option (List (String × ℚ))
  deriving DecidableEq, Repr

/-- The per-video annotation document: `data.get('frames', {})`, an ordered
map from string frame keys to frame records. -/
structure AnnotationDocument where
  frames : List (String × FrameData)
  deriving DecidableEq, Repr

/-- The value stored per frame in the loader's result: the inner
`'instruments'` and `'verbs'` defaultdicts.  Only explicitly assigned entries
are listed (the loader only ever assigns the value `1`). -/
structure FrameAnnot where
  instruments : List (String × Int)
  verbs : List (String × Int)
  deriving DecidableEq, Repr

/-- The loader's result: the outer `frame_annotations` defaultdict, an ordered
map from integer frame numbers to frame annotations. -/
abbrev AnnotationIndex := List (Int × FrameAnnot)

/-- The default value the outer defaultdict manufactures on first access to a
missing frame number: `{'instruments': defaultdict(int), 'verbs':
defaultdict(int)}` with both inner dicts empty. -/
def emptyAnnot : FrameAnnot := ⟨[], []⟩

/-- Errors `load_ground_truth` can raise while processing a parsed document:
the `IndexError` from sampling `list(frames.items())[0]` on an empty frames
map, and the `ValueError` from `int(frame_num)` on a malformed frame key. -/
inductive LoadError where
  | indexError
  | malformedFrameKey (key : String)
  deriving DecidableEq, Repr

/-- Python dict assignment `d[k] = v`: an existing key keeps its position and
gets the new value, a new key is appended at the end. -/
def dictSet : List (String × Int) → String → Int → List (String × Int)
  | [], k, v => [(k, v)]
  | p :: rest, k, v => if p.1 = k then (k, v) :: rest else p :: dictSet rest k v

/-- Access-and-mutate on the outer defaultdict:
`frame_annotations[k]` vivifies a default entry when `k` is missing (appended
at the end), and the subsequent nested assignment applies `f` to that entry's
value in place. -/
def outerUpdate : AnnotationIndex → Int → (FrameAnnot → FrameAnnot) → AnnotationIndex
  | [], k, f => [(k, f emptyAnnot)]
  | p :: rest, k, f => if p.1 = k then (p.1, f p.2) :: rest else p :: outerUpdate rest k f

/-- Plain lookup of a frame number in the index (no mutation): `none` when the
key has never been vivified. -/
def lookupIdx : AnnotationIndex → Int → Option FrameAnnot
  | [], _ => none
  | p :: rest, k => if p.1 = k then some p.2 else lookupIdx rest k

/-- The key set of the index, as `frame_annotations.keys()` would report it. -/
def keysOf (idx : AnnotationIndex) : List Int :=
  idx.map Prod.fst

/-- The defaultdict's `__getitem__`: returns the stored annotation, or — for a
missing key — inserts and returns the default empty annotation.  The second
component is the index after the access. -/
def defaultGetItem (idx : AnnotationIndex) (k : Int) : FrameAnnot × AnnotationIndex :=
  match lookupIdx idx k with
  | some fa => (fa, idx)
  | none => (emptyAnnot, idx ++ [(k, emptyAnnot)])

/-- Effect of `frame_annotations[fn]['instruments'][name] = 1`, given the
entry's current value. -/
def applyInstrument (fa : FrameAnnot) (name : String) : FrameAnnot :=
  { fa with instruments := dictSet fa.instruments name 1 }

/-- Effect of `frame_annotations[fn]['verbs'][name] = 1`, given the entry's
current value. -/
def applyAction (fa : FrameAnnot) (name : String) : FrameAnnot :=
  { fa with verbs := dictSet fa.verbs name 1 }

/-- One iteration of either inner loop of the loader: when the presence value
is strictly positive, write `1` for the name into the frame's sub-dict
(vivifying the frame's outer entry if needed); otherwise do nothing. -/
def recordPositive (g : FrameAnnot → String → FrameAnnot) (fn : Int)
    (acc : AnnotationIndex) (p : String × ℚ) : AnnotationIndex :=
  if p.2 > 0 then outerUpdate acc fn (fun fa => g fa p.1) else acc

/-- The body of the loader's per-frame loop: the `instruments` loop followed
by the `actions` loop, an absent sub-map read as empty. -/
def processFrame (acc : AnnotationIndex) (fn : Int) (fd : FrameData) : AnnotationIndex :=
  let acc1 := (fd.instruments.getD []).foldl (recordPositive applyInstrument fn) acc
  (fd.actions.getD []).foldl (recordPositive applyAction fn) acc1

/-- The loader's main loop over `frames.items()`: parse each key with
`int(...)` (a failure raises and aborts the whole call), then process the
frame's sub-maps. -/
def processAll : List (String × FrameData) → AnnotationIndex → Except LoadError AnnotationIndex
  | [], acc => .ok acc
  | (key, fd) :: rest, acc =>
    match pyParseInt key with
    | none => .error (.malformedFrameKey key)
    | some fn => processAll rest (processFrame acc fn fd)

/-- The document-processing core of `HierarchicalEvaluator.load_ground_truth`:
sampling `list(frames.items())[0]` raises `IndexError` on an empty frames map;
otherwise the per-frame loop runs and the accumulated defaultdict is
returned.  (The function's print statements have no effect on the result.) -/
def load_ground_truth (doc : AnnotationDocument) : Except LoadError AnnotationIndex :=
  if doc.frames.isEmpty then .error .indexError
  else processAll doc.frames []

/-- Errors observable at the call boundary of `load_ground_truth`: the
`FileNotFoundError` from `open`, the `json.JSONDecodeError` from `json.load`,
or an error from document processing.  The `except` clause prints and
re-raises, so every error propagates to the caller unchanged. -/
inductive IOError where
  | fileNotFound
  | jsonParseError
  | loader (e : LoadError)
  deriving DecidableEq, Repr

/-- The full `load_ground_truth` including its file I/O, with the filesystem
abstracted as what reading the annotation path yields: `none` when the file
does not exist (`open` raises `FileNotFoundError`), `some (.error m)` when the
content is malformed JSON (`json.load` raises), `some (.ok doc)` when a
document parses.  No retry, no recovery, no default result is substituted. -/
def load_ground_truth_io (file : Option (Except String AnnotationDocument)) :
    Except IOError AnnotationIndex :=
  match file with
  | none => .error .fileNotFound
  | some (.error _) => .error .jsonParseError
  | some (.ok doc) =>
    match load_ground_truth doc with
    | .error e => .error (.loader e)
    | .ok idx => .ok idx

/-- Boolean form of the loader's presence test `value > 0` on one
name-to-value pair. -/
def posP (p : String × ℚ) : Bool :=
  decide (p.2 > 0)

/-- Whether a frame record holds at least one strictly positive presence
value — exactly the condition under which the loader vivifies the frame's
entry in the outer defaultdict. -/
def hasPositive (fd : FrameData) : Bool :=
  (fd.instruments.getD []).any posP || (fd.actions.getD []).any posP

/-- A document is valid when it has at least one frame, every frame key parses
as an integer, the parsed frame numbers are pairwise distinct, and the names
within each sub-map are pairwise distinct (as JSON object keys are). -/
def ValidDoc (doc : AnnotationDocument) : Prop :=
  doc.frames ≠ [] ∧
    (∀ p ∈ doc.frames, (pyParseInt p.1).isSome = true) ∧
    (doc.frames.map (fun p => pyParseInt p.1)).Nodup ∧
    ∀ p ∈ doc.frames, ((p.2.instruments.getD []).map Prod.fst).Nodup ∧
      ((p.2.actions.getD []).map Prod.fst).Nodup

instance (doc : AnnotationDocument) : Decidable (ValidDoc doc) := by
  unfold ValidDoc
  exact inferInstance

/-- Derived per-sub-map semantics: the effect one inner loop of the loader has
on the frame's (optional) outer entry.  When some value in the sub-map is
strictly positive, the entry — vivified to the empty annotation when absent —
receives `g` for each positive name in order; otherwise the entry is left
untouched (in particular it is not vivified). -/
def subStep (g : FrameAnnot → String → FrameAnnot) (l : List (String × ℚ))
    (o : Option FrameAnnot) : Option FrameAnnot :=
  if l.any posP then
    some ((l.filter posP).foldl (fun fa p => g fa p.1) (o.getD emptyAnnot))
  else o

/-- Derived per-frame semantics: the instruments loop followed by the actions
loop, acting on the frame's optional outer entry. -/
def frameStep (fd : FrameData) (o : Option FrameAnnot) : Option FrameAnnot :=
  subStep applyAction (fd.actions.getD [])
    (subStep applyInstrument (fd.instruments.getD []) o)

deriving instance DecidableEq for Except

/-- The rational number one half, in normalised `num/den` form so that concrete
documents holding fractional presence values (such as `0.5`) evaluate by
kernel reduction. -/
def ratHalf : ℚ :=
  Rat.mk' 1 2 (by decide) (Nat.coprime_one_left 2)

example : pyParseInt "abc" = none := by decide
example : pyParseInt "0" = some 0 := by decide
example : pyParseInt " 42 " = some 42 := by decide
example : pyParseInt "-7" = some (-7) := by decide
example :
    load_ground_truth
        ⟨[("0", ⟨some [("grasper", 1), ("hook", 0)], some [("cut", 1)]⟩)]⟩ =
      .ok [(0, ⟨[("grasper", 1)], [("cut", 1)]⟩)] := by decide
example :
    load_ground_truth ⟨[("0", ⟨some [("hook", 0)], none⟩)]⟩ = .ok [] := by decide
example : load_ground_truth ⟨[]⟩ = .error .indexError := by decide
example :
    load_ground_truth ⟨[("0", ⟨some [("hook", (1 : ℚ)/2)], none⟩), ("abc", ⟨none, none⟩)]⟩ =
      .error (.malformedFrameKey "abc") := by decide

/-! ### Lemmas about the defaultdict primitives -/

theorem lookupIdx_outerUpdate_self (m : AnnotationIndex) (k : Int)
    (f : FrameAnnot → FrameAnnot) :
    lookupIdx (outerUpdate m k f) k = some (f ((lookupIdx m k).getD emptyAnnot)) := by
  induction m with
  | nil => simp [outerUpdate, lookupIdx]
  | cons p rest ih =>
    by_cases h : p.1 = k
    · simp [outerUpdate, lookupIdx, h]
    · simp [outerUpdate, lookupIdx, h, ih]

theorem lookupIdx_outerUpdate_ne (m : AnnotationIndex) (k j : Int)
    (f : FrameAnnot → FrameAnnot) (hjk : j ≠ k) :
    lookupIdx (outerUpdate m k f) j = lookupIdx m j := by
  have hkj : k ≠ j := fun h => hjk h.symm
  induction m with
  | nil => simp [outerUpdate, lookupIdx, hkj]
  | cons p rest ih =>
    by_cases h : p.1 = k
    · simp [outerUpdate, lookupIdx, h, hkj]
    · by_cases h2 : p.1 = j
      · simp [outerUpdate, lookupIdx, h, h2, hjk]
      · simp [outerUpdate, lookupIdx, h, h2, ih]

theorem mem_dictSet_names (m : List (String × Int)) (k : String) (v : Int) (n : String) :
    n ∈ (dictSet m k v).map Prod.fst ↔ n ∈ m.map Prod.fst ∨ n = k := by
  induction m with
  | nil => simp [dictSet, eq_comm]
  | cons p rest ih =>
    by_cases h : p.1 = k
    · subst h
      simp [dictSet, eq_comm]
      tauto
    · simp [dictSet, h, ih]
      tauto

theorem mem_keysOf_iff (idx : AnnotationIndex) (k : Int) :
    k ∈ keysOf idx ↔ (lookupIdx idx k).isSome = true := by
  induction idx with
  | nil => simp [keysOf, lookupIdx]
  | cons p rest ih =>
    by_cases h : p.1 = k
    · simp [keysOf, lookupIdx, h]
    · simp [keysOf, lookupIdx, h, Ne.symm h] at ih ⊢
      exact ih

/-! ### From the inner loops to the derived per-frame semantics -/

theorem subStep_some (g : FrameAnnot → String → FrameAnnot)
    (l : List (String × ℚ)) (fa : FrameAnnot) :
    subStep g l (some fa) =
      some ((l.filter posP).foldl (fun fa p => g fa p.1) fa) := by
  by_cases h : l.any posP
  · simp [subStep, h]
  · have hf : l.filter posP = [] := by
      rw [List.filter_eq_nil_iff]
      intro a ha
      simpa using List.any_eq_false.mp (Bool.of_not_eq_true h) a ha
    simp [subStep, h, hf]

theorem foldl_recordPositive_lookup_self (g : FrameAnnot → String → FrameAnnot)
    (fn : Int) (l : List (String × ℚ)) : ∀ acc : AnnotationIndex,
    lookupIdx (l.foldl (recordPositive g fn) acc) fn = subStep g l (lookupIdx acc fn) := by
  induction l with
  | nil => intro acc; simp [subStep]
  | cons p rest ih =>
    intro acc
    by_cases hp : p.2 > 0
    · have hp2 : posP p = true := decide_eq_true hp
      rw [List.foldl_cons,
        show recordPositive g fn acc p = outerUpdate acc fn (fun fa => g fa p.1) from by
          simp [recordPositive, hp],
        ih, lookupIdx_outerUpdate_self, subStep_some]
      simp [subStep, hp2, List.filter_cons, List.any_cons]
    · have hp2 : posP p = false := decide_eq_false hp
      rw [List.foldl_cons,
        show recordPositive g fn acc p = acc from by simp [recordPositive, hp], ih]
      simp only [subStep, List.any_cons, hp2, Bool.false_or, List.filter_cons,
        Bool.false_eq_true, if_false]

theorem foldl_recordPositive_lookup_ne (g : FrameAnnot → String → FrameAnnot)
    (fn j : Int) (hj : j ≠ fn) (l : List (String × ℚ)) : ∀ acc : AnnotationIndex,
    lookupIdx (l.foldl (recordPositive g fn) acc) j = lookupIdx acc j := by
  induction l with
  | nil => intro acc; rfl
  | cons p rest ih =>
    intro acc
    rw [List.foldl_cons, ih]
    by_cases hp : p.2 > 0
    · simp [recordPositive, hp, lookupIdx_outerUpdate_ne _ _ _ _ hj]
    · simp [recordPositive, hp]

theorem lookupIdx_processFrame_self (acc : AnnotationIndex) (fn : Int) (fd : FrameData) :
    lookupIdx (processFrame acc fn fd) fn = frameStep fd (lookupIdx acc fn) := by
  unfold processFrame frameStep
  rw [foldl_recordPositive_lookup_self, foldl_recordPositive_lookup_self]

theorem lookupIdx_processFrame_ne (acc : AnnotationIndex) (fn : Int) (fd : FrameData)
    (j : Int) (hj : j ≠ fn) :
    lookupIdx (processFrame acc fn fd) j = lookupIdx acc j := by
  unfold processFrame
  rw [foldl_recordPositive_lookup_ne _ _ _ hj, foldl_recordPositive_lookup_ne _ _ _ hj]

theorem subStep_isSome (g : FrameAnnot → String → FrameAnnot)
    (l : List (String × ℚ)) (o : Option FrameAnnot) :
    (subStep g l o).isSome = (o.isSome || l.any posP) := by
  by_cases h : l.any posP
  · simp [subStep, h]
  · simp [subStep, h]

theorem frameStep_isSome (fd : FrameData) (o : Option FrameAnnot) :
    (frameStep fd o).isSome = (o.isSome || hasPositive fd) := by
  unfold frameStep hasPositive
  rw [subStep_isSome, subStep_isSome]
  cases o <;> simp [Bool.or_assoc]

/-! ### Lemmas about the main loop -/

theorem processAll_ok_of_parse (frames : List (String × FrameData))
    (hall : ∀ p ∈ frames, (pyParseInt p.1).isSome = true) :
    ∀ acc : AnnotationIndex, ∃ idx, processAll frames acc = .ok idx := by
  induction frames with
  | nil => intro acc; exact ⟨acc, rfl⟩
  | cons q rest ih =>
    obtain ⟨key, fd⟩ := q
    intro acc
    obtain ⟨fn, hfn⟩ :=
      Option.isSome_iff_exists.mp (hall (key, fd) (List.mem_cons_self _ _))
    obtain ⟨idx, hidx⟩ :=
      ih (fun p hp => hall p (List.mem_cons_of_mem _ hp)) (processFrame acc fn fd)
    exact ⟨idx, by simp [processAll, hfn, hidx]⟩

theorem processAll_error_of_badkey : ∀ (frames : List (String × FrameData))
    (acc : AnnotationIndex), (∃ p ∈ frames, pyParseInt p.1 = none) →
    ∃ s, processAll frames acc = .error (.malformedFrameKey s) ∧ pyParseInt s = none := by
  intro frames
  induction frames with
  | nil => intro acc h; simp at h
  | cons q rest ih =>
    obtain ⟨key, fd⟩ := q
    intro acc h
    cases hk : pyParseInt key with
    | none => exact ⟨key, by simp [processAll, hk], hk⟩
    | some fn =>
      have hrest : ∃ p ∈ rest, pyParseInt p.1 = none := by
        obtain ⟨p, hp, hnone⟩ := h
        rcases List.mem_cons.mp hp with rfl | hmem
        · rw [hk] at hnone; exact absurd hnone (by simp)
        · exact ⟨p, hmem, hnone⟩
      obtain ⟨s, hs1, hs2⟩ := ih (processFrame acc fn fd) hrest
      exact ⟨s, by simp [processAll, hk, hs1], hs2⟩

theorem processAll_lookup_of_no_key : ∀ (frames : List (String × FrameData))
    (acc idx : AnnotationIndex) (k : Int), processAll frames acc = .ok idx →
    (∀ p ∈ frames, pyParseInt p.1 ≠ some k) →
    lookupIdx idx k = lookupIdx acc k := by
  intro frames
  induction frames with
  | nil =>
    intro acc idx k h _
    simp [processAll] at h
    rw [h]
  | cons q rest ih =>
    obtain ⟨key, fd⟩ := q
    intro acc idx k h hk
    cases hkey : pyParseInt key with
    | none => simp [processAll, hkey] at h
    | some fn =>
      simp only [processAll, hkey] at h
      have hfn : fn ≠ k := by
        intro he
        exact hk (key, fd) (List.mem_cons_self _ _) (by rw [hkey, he])
      calc lookupIdx idx k
          = lookupIdx (processFrame acc fn fd) k :=
            ih _ _ _ h (fun p hp => hk p (List.mem_cons_of_mem _ hp))
        _ = lookupIdx acc k :=
            lookupIdx_processFrame_ne _ _ _ _ (fun he => hfn he.symm)

theorem processAll_lookup_frame : ∀ (frames : List (String × FrameData))
    (acc idx : AnnotationIndex) (s : String) (fd : FrameData) (k : Int),
    processAll frames acc = .ok idx →
    (frames.map fun p => pyParseInt p.1).Nodup →
    (s, fd) ∈ frames →
    pyParseInt s = some k →
    lookupIdx idx k = frameStep fd (lookupIdx acc k) := by
  intro frames
  induction frames with
  | nil =>
    intro acc idx s fd k _ _ hmem _
    simp at hmem
  | cons q rest ih =>
    obtain ⟨key, qfd⟩ := q
    intro acc idx s fd k h hnd hmem hs
    have hnd2 : (pyParseInt key ∉ rest.map fun p => pyParseInt p.1) ∧
        (rest.map fun p => pyParseInt p.1).Nodup := by
      simp only [List.map_cons, List.nodup_cons] at hnd
      exact hnd
    cases hkey : pyParseInt key with
    | none => simp [processAll, hkey] at h
    | some fn =>
      simp only [processAll, hkey] at h
      rcases List.mem_cons.mp hmem with heq | hmem2
      · have hsk : s = key := congrArg Prod.fst heq
        have hfd : fd = qfd := congrArg Prod.snd heq
        subst hsk
        subst hfd
        have hfk : fn = k := by
          rw [hs] at hkey
          exact (Option.some.inj hkey).symm
        subst hfk
        have hnok : ∀ p ∈ rest, pyParseInt p.1 ≠ some fn := by
          intro p hp he
          exact hnd2.1 (hs ▸ List.mem_map.mpr ⟨p, hp, he⟩)
        rw [processAll_lookup_of_no_key rest _ idx fn h hnok,
          lookupIdx_processFrame_self]
      · have hfnk : fn ≠ k := by
          intro he
          subst he
          exact hnd2.1 (hkey ▸ List.mem_map.mpr ⟨(s, fd), hmem2, hs⟩)
        rw [ih _ idx s fd k h hnd2.2 hmem2 hs,
          lookupIdx_processFrame_ne _ _ _ _ (fun he => hfnk he.symm)]

theorem processFrame_keys (acc : AnnotationIndex) (fn : Int) (fd : FrameData) (k : Int) :
    k ∈ keysOf (processFrame acc fn fd) ↔
      k ∈ keysOf acc ∨ (k = fn ∧ hasPositive fd = true) := by
  by_cases hk : k = fn
  · subst hk
    rw [mem_keysOf_iff, lookupIdx_processFrame_self, frameStep_isSome,
      mem_keysOf_iff]
    simp
  · rw [mem_keysOf_iff, lookupIdx_processFrame_ne _ _ _ _ hk, ← mem_keysOf_iff]
    simp [hk]

theorem processAll_keys : ∀ (frames : List (String × FrameData))
    (acc idx : AnnotationIndex), processAll frames acc = .ok idx →
    ∀ k : Int, (k ∈ keysOf idx ↔
      k ∈ keysOf acc ∨ ∃ p ∈ frames, pyParseInt p.1 = some k ∧ hasPositive p.2 = true) := by
  intro frames
  induction frames with
  | nil =>
    intro acc idx h k
    simp [processAll] at h
    rw [h]
    simp
  | cons q rest ih =>
    obtain ⟨key, qfd⟩ := q
    intro acc idx h k
    cases hkey : pyParseInt key with
    | none => simp [processAll, hkey] at h
    | some fn =>
      simp only [processAll, hkey] at h
      rw [ih _ _ h k, processFrame_keys]
      constructor
      · rintro ((hacc | ⟨rfl, hpos⟩) | ⟨p, hp, hpk, hppos⟩)
        · exact Or.inl hacc
        · exact Or.inr ⟨(key, qfd), List.mem_cons_self _ _, hkey, hpos⟩
        · exact Or.inr ⟨p, List.mem_cons_of_mem _ hp, hpk, hppos⟩
      · rintro (hacc | ⟨p, hp, hpk, hppos⟩)
        · exact Or.inl (Or.inl hacc)
        · rcases List.mem_cons.mp hp with rfl | hmem
          · rw [hkey] at hpk
            exact Or.inl (Or.inr ⟨(Option.some.inj hpk).symm, hppos⟩)
          · exact Or.inr ⟨p, hmem, hpk, hppos⟩

/-! ### Content of the per-frame entries -/

theorem posP_iff (p : String × ℚ) : posP p = true ↔ p.2 > 0 := by
  simp [posP]

theorem foldl_applyInstrument_verbs : ∀ (l : List (String × ℚ)) (fa : FrameAnnot),
    (l.foldl (fun fa p => applyInstrument fa p.1) fa).verbs = fa.verbs := by
  intro l
  induction l with
  | nil => intro fa; rfl
  | cons p rest ih => intro fa; rw [List.foldl_cons, ih]; rfl

theorem foldl_applyAction_instruments : ∀ (l : List (String × ℚ)) (fa : FrameAnnot),
    (l.foldl (fun fa p => applyAction fa p.1) fa).instruments = fa.instruments := by
  intro l
  induction l with
  | nil => intro fa; rfl
  | cons p rest ih => intro fa; rw [List.foldl_cons, ih]; rfl

theorem foldl_applyInstrument_names : ∀ (l : List (String × ℚ)) (fa : FrameAnnot)
    (n : String),
    (n ∈ (l.foldl (fun fa p => applyInstrument fa p.1) fa).instruments.map Prod.fst ↔
      n ∈ fa.instruments.map Prod.fst ∨ ∃ p ∈ l, p.1 = n) := by
  intro l
  induction l with
  | nil => intro fa n; simp
  | cons p rest ih =>
    intro fa n
    rw [List.foldl_cons, ih]
    simp only [applyInstrument, mem_dictSet_names, List.mem_cons]
    constructor
    · rintro ((hin | hn) | ⟨q, hq, hqn⟩)
      · exact Or.inl hin
      · exact Or.inr ⟨p, Or.inl rfl, hn.symm⟩
      · exact Or.inr ⟨q, Or.inr hq, hqn⟩
    · rintro (hin | ⟨q, (rfl | hq), hqn⟩)
      · exact Or.inl (Or.inl hin)
      · exact Or.inl (Or.inr hqn.symm)
      · exact Or.inr ⟨q, hq, hqn⟩

theorem foldl_applyAction_names : ∀ (l : List (String × ℚ)) (fa : FrameAnnot)
    (n : String),
    (n ∈ (l.foldl (fun fa p => applyAction fa p.1) fa).verbs.map Prod.fst ↔
      n ∈ fa.verbs.map Prod.fst ∨ ∃ p ∈ l, p.1 = n) := by
  intro l
  induction l with
  | nil => intro fa n; simp
  | cons p rest ih =>
    intro fa n
    rw [List.foldl_cons, ih]
    simp only [applyAction, mem_dictSet_names, List.mem_cons]
    constructor
    · rintro ((hin | hn) | ⟨q, hq, hqn⟩)
      · exact Or.inl hin
      · exact Or.inr ⟨p, Or.inl rfl, hn.symm⟩
      · exact Or.inr ⟨q, Or.inr hq, hqn⟩
    · rintro (hin | ⟨q, (rfl | hq), hqn⟩)
      · exact Or.inl (Or.inl hin)
      · exact Or.inl (Or.inr hqn.symm)
      · exact Or.inr ⟨q, hq, hqn⟩

theorem exists_posFilter (l : List (String × ℚ)) (n : String) :
    (∃ p ∈ l.filter posP, p.1 = n) ↔ ∃ p ∈ l, p.1 = n ∧ p.2 > 0 := by
  constructor
  · rintro ⟨p, hp, rfl⟩
    have hm := List.mem_filter.mp hp
    exact ⟨p, hm.1, rfl, (posP_iff p).mp hm.2⟩
  · rintro ⟨p, hp, rfl, hpos⟩
    exact ⟨p, List.mem_filter.mpr ⟨hp, (posP_iff p).mpr hpos⟩, rfl⟩

theorem subStep_applyInstrument_names (l : List (String × ℚ)) (o : Option FrameAnnot)
    (n : String) :
    n ∈ ((subStep applyInstrument l o).getD emptyAnnot).instruments.map Prod.fst ↔
      n ∈ (o.getD emptyAnnot).instruments.map Prod.fst ∨ ∃ p ∈ l, p.1 = n ∧ p.2 > 0 := by
  by_cases h : l.any posP
  · simp only [subStep, h, if_true, Option.getD_some]
    rw [foldl_applyInstrument_names, exists_posFilter]
  · have hforall : ∀ p ∈ l, ¬posP p = true := List.any_eq_false.mp (Bool.of_not_eq_true h)
    simp only [subStep, h]
    rw [if_neg Bool.false_ne_true]
    constructor
    · exact Or.inl
    · rintro (hin | ⟨p, hp, rfl, hpos⟩)
      · exact hin
      · exact absurd ((posP_iff p).mpr hpos) (hforall p hp)

theorem subStep_applyAction_names (l : List (String × ℚ)) (o : Option FrameAnnot)
    (n : String) :
    n ∈ ((subStep applyAction l o).getD emptyAnnot).verbs.map Prod.fst ↔
      n ∈ (o.getD emptyAnnot).verbs.map Prod.fst ∨ ∃ p ∈ l, p.1 = n ∧ p.2 > 0 := by
  by_cases h : l.any posP
  · simp only [subStep, h, if_true, Option.getD_some]
    rw [foldl_applyAction_names, exists_posFilter]
  · have hforall : ∀ p ∈ l, ¬posP p = true := List.any_eq_false.mp (Bool.of_not_eq_true h)
    simp only [subStep, h]
    rw [if_neg Bool.false_ne_true]
    constructor
    · exact Or.inl
    · rintro (hin | ⟨p, hp, rfl, hpos⟩)
      · exact hin
      · exact absurd ((posP_iff p).mpr hpos) (hforall p hp)

theorem subStep_applyAction_instruments (l : List (String × ℚ)) (o : Option FrameAnnot) :
    ((subStep applyAction l o).getD emptyAnnot).instruments =
      (o.getD emptyAnnot).instruments := by
  by_cases h : l.any posP
  · simp only [subStep, h, if_true, Option.getD_some]
    rw [foldl_applyAction_instruments]
  · simp only [subStep, h]
    rw [if_neg Bool.false_ne_true]

theorem subStep_applyInstrument_verbs (l : List (String × ℚ)) (o : Option FrameAnnot) :
    ((subStep applyInstrument l o).getD emptyAnnot).verbs =
      (o.getD emptyAnnot).verbs := by
  by_cases h : l.any posP
  · simp only [subStep, h, if_true, Option.getD_some]
    rw [foldl_applyInstrument_verbs]
  · simp only [subStep, h]
    rw [if_neg Bool.false_ne_true]

theorem frameStep_none_instrument_names (fd : FrameData) (n : String) :
    n ∈ ((frameStep fd none).getD emptyAnnot).instruments.map Prod.fst ↔
      ∃ p ∈ fd.instruments.getD [], p.1 = n ∧ p.2 > 0 := by
  unfold frameStep
  rw [show ((subStep applyAction (fd.actions.getD [])
        (subStep applyInstrument (fd.instruments.getD []) none)).getD
          emptyAnnot).instruments =
      ((subStep applyInstrument (fd.instruments.getD []) none).getD
        emptyAnnot).instruments from subStep_applyAction_instruments _ _,
    subStep_applyInstrument_names]
  simp [emptyAnnot]

theorem frameStep_none_verb_names (fd : FrameData) (n : String) :
    n ∈ ((frameStep fd none).getD emptyAnnot).verbs.map Prod.fst ↔
      ∃ p ∈ fd.actions.getD [], p.1 = n ∧ p.2 > 0 := by
  unfold frameStep
  rw [subStep_applyAction_names,
    show ((subStep applyInstrument (fd.instruments.getD []) none).getD
        emptyAnnot).verbs = ((none.getD emptyAnnot) :
          FrameAnnot).verbs from subStep_applyInstrument_verbs _ _]
  simp [emptyAnnot]

/-! ### Association-list uniqueness and the constant-1 invariant -/

theorem assoc_nodup_value : ∀ (l : List (String × ℚ)), (l.map Prod.fst).Nodup →
    ∀ (n : String) (v : ℚ), (n, v) ∈ l → ∀ p ∈ l, p.1 = n → p = (n, v) := by
  intro l
  induction l with
  | nil => intro _ n v hmem; cases hmem
  | cons q rest ih =>
    intro hnd n v hmem p hp hpn
    rw [List.map_cons, List.nodup_cons] at hnd
    rcases List.mem_cons.mp hmem with heq | hmem2
    · rcases List.mem_cons.mp hp with rfl | hp2
      · exact heq.symm
      · exfalso
        apply hnd.1
        rw [← heq]
        exact List.mem_map.mpr ⟨p, hp2, hpn⟩
    · rcases List.mem_cons.mp hp with rfl | hp2
      · exfalso
        apply hnd.1
        rw [hpn]
        exact List.mem_map.mpr ⟨(n, v), hmem2, rfl⟩
      · exact ih hnd.2 n v hmem2 p hp2 hpn

theorem nodup_names_value_pos (l : List (String × ℚ)) (hnd : (l.map Prod.fst).Nodup)
    (n : String) (v : ℚ) (hmem : (n, v) ∈ l) :
    (∃ p ∈ l, p.1 = n ∧ p.2 > 0) ↔ v > 0 := by
  constructor
  · rintro ⟨p, hp, hpn, hpos⟩
    rw [assoc_nodup_value l hnd n v hmem p hp hpn] at hpos
    exact hpos
  · intro hv
    exact ⟨(n, v), hmem, rfl, hv⟩

theorem dictSet_ones (m : List (String × Int)) (k : String)
    (hm : ∀ r ∈ m, r.2 = 1) : ∀ r ∈ dictSet m k 1, r.2 = 1 := by
  induction m with
  | nil =>
    intro r hr
    simp [dictSet] at hr
    rw [hr]
  | cons p rest ih =>
    intro r hr
    by_cases h : p.1 = k
    · simp only [dictSet, if_pos h] at hr
      rcases List.mem_cons.mp hr with rfl | hr2
      · rfl
      · exact hm r (List.mem_cons_of_mem _ hr2)
    · simp only [dictSet, if_neg h] at hr
      rcases List.mem_cons.mp hr with rfl | hr2
      · exact hm r (List.mem_cons_self _ _)
      · exact ih (fun r hr => hm r (List.mem_cons_of_mem _ hr)) r hr2

theorem outerUpdate_ones : ∀ (m : AnnotationIndex) (k : Int)
    (f : FrameAnnot → FrameAnnot),
    (∀ fa : FrameAnnot,
      ((∀ r ∈ fa.instruments, r.2 = 1) ∧ ∀ r ∈ fa.verbs, r.2 = 1) →
      (∀ r ∈ (f fa).instruments, r.2 = 1) ∧ ∀ r ∈ (f fa).verbs, r.2 = 1) →
    (∀ q ∈ m, (∀ r ∈ q.2.instruments, r.2 = 1) ∧ ∀ r ∈ q.2.verbs, r.2 = 1) →
    ∀ q ∈ outerUpdate m k f,
      (∀ r ∈ q.2.instruments, r.2 = 1) ∧ ∀ r ∈ q.2.verbs, r.2 = 1 := by
  intro m
  induction m with
  | nil =>
    intro k f hf _ q hq
    simp [outerUpdate] at hq
    rw [hq]
    exact hf emptyAnnot ⟨by simp [emptyAnnot], by simp [emptyAnnot]⟩
  | cons p rest ih =>
    intro k f hf hm q hq
    by_cases h : p.1 = k
    · simp only [outerUpdate, if_pos h] at hq
      rcases List.mem_cons.mp hq with rfl | hq2
      · exact hf p.2 (hm p (List.mem_cons_self _ _))
      · exact hm q (List.mem_cons_of_mem _ hq2)
    · simp only [outerUpdate, if_neg h] at hq
      rcases List.mem_cons.mp hq with rfl | hq2
      · exact hm q (List.mem_cons_self _ _)
      · exact ih k f hf (fun q hq => hm q (List.mem_cons_of_mem _ hq)) q hq2

theorem foldl_recordPositive_ones (g : FrameAnnot → String → FrameAnnot)
    (hg : ∀ (fa : FrameAnnot) (name : String),
      ((∀ r ∈ fa.instruments, r.2 = 1) ∧ ∀ r ∈ fa.verbs, r.2 = 1) →
      (∀ r ∈ (g fa name).instruments, r.2 = 1) ∧ ∀ r ∈ (g fa name).verbs, r.2 = 1)
    (fn : Int) : ∀ (l : List (String × ℚ)) (acc : AnnotationIndex),
    (∀ q ∈ acc, (∀ r ∈ q.2.instruments, r.2 = 1) ∧ ∀ r ∈ q.2.verbs, r.2 = 1) →
    ∀ q ∈ l.foldl (recordPositive g fn) acc,
      (∀ r ∈ q.2.instruments, r.2 = 1) ∧ ∀ r ∈ q.2.verbs, r.2 = 1 := by
  intro l
  induction l with
  | nil => intro acc hacc; exact hacc
  | cons p rest ih =>
    intro acc hacc
    rw [List.foldl_cons]
    apply ih
    by_cases hp : p.2 > 0
    · rw [show recordPositive g fn acc p = outerUpdate acc fn (fun fa => g fa p.1) from by
        simp [recordPositive, hp]]
      exact outerUpdate_ones acc fn _ (fun fa hfa => hg fa p.1 hfa) hacc
    · rw [show recordPositive g fn acc p = acc from by simp [recordPositive, hp]]
      exact hacc

theorem processAll_ones : ∀ (frames : List (String × FrameData))
    (acc idx : AnnotationIndex),
    (∀ q ∈ acc, (∀ r ∈ q.2.instruments, r.2 = 1) ∧ ∀ r ∈ q.2.verbs, r.2 = 1) →
    processAll frames acc = .ok idx →
    ∀ q ∈ idx, (∀ r ∈ q.2.instruments, r.2 = 1) ∧ ∀ r ∈ q.2.verbs, r.2 = 1 := by
  intro frames
  induction frames with
  | nil =>
    intro acc idx hacc h
    simp [processAll] at h
    rw [← h]
    exact hacc
  | cons q rest ih =>
    obtain ⟨key, fd⟩ := q
    intro acc idx hacc h
    cases hkey : pyParseInt key with
    | none => simp [processAll, hkey] at h
    | some fn =>
      simp only [processAll, hkey] at h
      have h1 := foldl_recordPositive_ones applyInstrument
        (fun fa name hfa => ⟨dictSet_ones _ _ hfa.1, hfa.2⟩) fn
        (fd.instruments.getD []) acc hacc
      have h2 := foldl_recordPositive_ones applyAction
        (fun fa name hfa => ⟨hfa.1, dictSet_ones _ _ hfa.2⟩) fn
        (fd.actions.getD []) _ h1
      exact ih _ idx h2 h

theorem defaultGetItem_fst (idx : AnnotationIndex) (k : Int) :
    (defaultGetItem idx k).1 = (lookupIdx idx k).getD emptyAnnot := by
  unfold defaultGetItem
  cases h : lookupIdx idx k <;> simp [h]

/-! ### Bridges between the public entry point and the main loop -/

theorem load_ground_truth_eq (doc : AnnotationDocument) (h : doc.frames ≠ []) :
    load_ground_truth doc = processAll doc.frames [] := by
  unfold load_ground_truth
  rw [if_neg (by simpa [List.isEmpty_iff] using h)]

theorem load_ok_nonempty (doc : AnnotationDocument) (idx : AnnotationIndex)
    (hok : load_ground_truth doc = .ok idx) : doc.frames ≠ [] := by
  intro he
  unfold load_ground_truth at hok
  rw [he] at hok
  simp at hok

/-! ### The claims -/

/-- Claim C1 is false on the code: in the valid document with the single frame
`"0" ↦ {instruments: {hook: 0}}` the frame key `"0"` parses to `0`, yet the
build returns an index with an empty key set — a frame whose sub-maps hold no
strictly positive value produces no entry, because the loader's defaultdict is
only vivified inside the `value > 0` branches. -/
theorem c1_counterexample :
    ValidDoc ⟨[("0", ⟨some [("hook", 0)], none⟩)]⟩ ∧
    ("0", (⟨some [("hook", 0)], none⟩ : FrameData)) ∈
      (⟨[("0", ⟨some [("hook", 0)], none⟩)]⟩ : AnnotationDocument).frames ∧
    pyParseInt "0" = some 0 ∧
    load_ground_truth ⟨[("0", ⟨some [("hook", 0)], none⟩)]⟩ = .ok [] ∧
    (0 : Int) ∉ keysOf [] := by
  exact ⟨by decide, by decide, by decide, by decide, by decide⟩

/-- Claim C1 (amended): for every valid document the build succeeds, and the
key set of the returned index consists of exactly those integer-parsed frame
keys of `document.frames` whose frame holds at least one strictly positive
instrument or action value; a frame with no positive value yields no entry. -/
theorem c1_keys_amended (doc : AnnotationDocument) (hv : ValidDoc doc) :
    ∃ idx, load_ground_truth doc = .ok idx ∧
      ∀ k : Int, (k ∈ keysOf idx ↔
        ∃ p ∈ doc.frames, pyParseInt p.1 = some k ∧ hasPositive p.2 = true) := by
  obtain ⟨hne, hparse, hnd, hnames⟩ := hv
  obtain ⟨idx, hidx⟩ := processAll_ok_of_parse doc.frames hparse []
  refine ⟨idx, by rw [load_ground_truth_eq doc hne, hidx], ?_⟩
  intro k
  rw [processAll_keys doc.frames [] idx hidx k]
  simp [keysOf]

/-- Witness for the amended C1 at a concrete valid document. -/
theorem c1_keys_amended_witness :
    ∃ idx, load_ground_truth ⟨[("0", ⟨some [("grasper", 1), ("hook", 0)], none⟩)]⟩ =
        .ok idx ∧
      ∀ k : Int, (k ∈ keysOf idx ↔
        ∃ p ∈ (⟨[("0", ⟨some [("grasper", 1), ("hook", 0)], none⟩)]⟩ :
            AnnotationDocument).frames,
          pyParseInt p.1 = some k ∧ hasPositive p.2 = true) :=
  c1_keys_amended ⟨[("0", ⟨some [("grasper", 1), ("hook", 0)], none⟩)]⟩ (by decide)

/-- Claim C2: for every frame of a valid document and every (name, value) pair
in that frame's instruments (resp. actions) sub-map, the name appears among
the frame's instrument (resp. verb) names in the built index iff the value is
strictly greater than 0. -/
theorem c2_membership_iff_positive (doc : AnnotationDocument) (hv : ValidDoc doc)
    (s : String) (fd : FrameData) (k : Int) (idx : AnnotationIndex)
    (hmem : (s, fd) ∈ doc.frames) (hs : pyParseInt s = some k)
    (hok : load_ground_truth doc = .ok idx) :
    (∀ (n : String) (v : ℚ), (n, v) ∈ fd.instruments.getD [] →
      (n ∈ (defaultGetItem idx k).1.instruments.map Prod.fst ↔ v > 0)) ∧
    (∀ (n : String) (v : ℚ), (n, v) ∈ fd.actions.getD [] →
      (n ∈ (defaultGetItem idx k).1.verbs.map Prod.fst ↔ v > 0)) := by
  obtain ⟨hne, hparse, hnd, hnames⟩ := hv
  rw [load_ground_truth_eq doc hne] at hok
  have hlk : lookupIdx idx k = frameStep fd none := by
    rw [processAll_lookup_frame doc.frames [] idx s fd k hok hnd hmem hs]
    rfl
  have hfst : (defaultGetItem idx k).1 = (frameStep fd none).getD emptyAnnot := by
    rw [defaultGetItem_fst, hlk]
  constructor
  · intro n v hnv
    rw [hfst, frameStep_none_instrument_names]
    exact nodup_names_value_pos _ (hnames (s, fd) hmem).1 n v hnv
  · intro n v hnv
    rw [hfst, frameStep_none_verb_names]
    exact nodup_names_value_pos _ (hnames (s, fd) hmem).2 n v hnv

/-- Witness for C2 at a concrete document holding values 1, 0 and 1/2. -/
theorem c2_membership_witness :
    (∀ (n : String) (v : ℚ),
      (n, v) ∈ (FrameData.mk (some [("grasper", 1), ("hook", 0), ("probe", ratHalf)])
          (some [("cut", 1)])).instruments.getD [] →
      (n ∈ (defaultGetItem [((0 : Int),
          FrameAnnot.mk [("grasper", 1), ("probe", 1)] [("cut", 1)])]
            0).1.instruments.map Prod.fst ↔ v > 0)) ∧
    (∀ (n : String) (v : ℚ),
      (n, v) ∈ (FrameData.mk (some [("grasper", 1), ("hook", 0), ("probe", ratHalf)])
          (some [("cut", 1)])).actions.getD [] →
      (n ∈ (defaultGetItem [((0 : Int),
          FrameAnnot.mk [("grasper", 1), ("probe", 1)] [("cut", 1)])]
            0).1.verbs.map Prod.fst ↔ v > 0)) :=
  c2_membership_iff_positive
    ⟨[("0", FrameData.mk (some [("grasper", 1), ("hook", 0), ("probe", ratHalf)])
        (some [("cut", 1)]))]⟩
    (by decide) "0"
    (FrameData.mk (some [("grasper", 1), ("hook", 0), ("probe", ratHalf)])
      (some [("cut", 1)]))
    0 [((0 : Int), FrameAnnot.mk [("grasper", 1), ("probe", 1)] [("cut", 1)])]
    (by decide) (by decide) (by decide)

/-- Claim C3: a document with a frame key that does not parse as an integer
makes `load_ground_truth` fail with a malformed-frame-key error (the
`ValueError` from `int(...)`), returning no index at all. -/
theorem c3_malformed_key_aborts (doc : AnnotationDocument)
    (h : ∃ p ∈ doc.frames, pyParseInt p.1 = none) :
    ∃ s, load_ground_truth doc = .error (.malformedFrameKey s) ∧
      pyParseInt s = none := by
  have hne : doc.frames ≠ [] := by
    obtain ⟨p, hp, _⟩ := h
    intro he
    rw [he] at hp
    cases hp
  rw [load_ground_truth_eq doc hne]
  exact processAll_error_of_badkey doc.frames [] h

/-- Witness for C3 at the document with frame key `"abc"`. -/
theorem c3_malformed_key_witness :
    ∃ s, load_ground_truth ⟨[("abc", FrameData.mk none none)]⟩ =
        .error (.malformedFrameKey s) ∧ pyParseInt s = none :=
  c3_malformed_key_aborts ⟨[("abc", FrameData.mk none none)]⟩ (by decide)

/-- Claim C4: a frame of a valid document with an empty instruments sub-map
and an absent actions key loads without error, and looking that frame up in
the returned index yields an annotation with empty instrument and verb
sets (an absent sub-map is treated as empty). -/
theorem c4_empty_submaps (doc : AnnotationDocument) (hv : ValidDoc doc)
    (s : String) (fd : FrameData) (k : Int)
    (hmem : (s, fd) ∈ doc.frames) (hinst : fd.instruments = some [])
    (hact : fd.actions = none) (hs : pyParseInt s = some k) :
    ∃ idx, load_ground_truth doc = .ok idx ∧
      (defaultGetItem idx k).1.instruments = [] ∧
      (defaultGetItem idx k).1.verbs = [] := by
  obtain ⟨hne, hparse, hnd, hnames⟩ := hv
  obtain ⟨idx, hidx⟩ := processAll_ok_of_parse doc.frames hparse []
  refine ⟨idx, by rw [load_ground_truth_eq doc hne, hidx], ?_⟩
  have hlk : lookupIdx idx k = frameStep fd none := by
    rw [processAll_lookup_frame doc.frames [] idx s fd k hidx hnd hmem hs]
    rfl
  have hstep : frameStep fd none = none := by
    unfold frameStep
    rw [hinst, hact]
    simp [subStep]
  rw [defaultGetItem_fst, hlk, hstep]
  exact ⟨rfl, rfl⟩

/-- Witness for C4 at the document whose only frame is `"5" ↦ {instruments:
{}}` with no actions key. -/
theorem c4_empty_submaps_witness :
    ∃ idx, load_ground_truth ⟨[("5", FrameData.mk (some []) none)]⟩ = .ok idx ∧
      (defaultGetItem idx 5).1.instruments = [] ∧
      (defaultGetItem idx 5).1.verbs = [] :=
  c4_empty_submaps ⟨[("5", FrameData.mk (some []) none)]⟩ (by decide) "5"
    (FrameData.mk (some []) none) 5 (by decide) (by decide) (by decide) (by decide)

/-- Claim C5 is false on the code in its read-only part: after building the
index of a valid document, looking up the absent frame number `7` with the
defaultdict's `[]` access inserts an empty entry for it, so key `7` is in the
key set afterwards — the returned index is not read-only under lookups. -/
theorem c5_counterexample :
    ValidDoc ⟨[("0", ⟨some [("grasper", 1)], none⟩)]⟩ ∧
    load_ground_truth ⟨[("0", ⟨some [("grasper", 1)], none⟩)]⟩ =
      .ok [(0, ⟨[("grasper", 1)], []⟩)] ∧
    (∀ p ∈ (⟨[("0", ⟨some [("grasper", 1)], none⟩)]⟩ : AnnotationDocument).frames,
      pyParseInt p.1 ≠ some 7) ∧
    (7 : Int) ∉ keysOf [(0, ⟨[("grasper", 1)], []⟩)] ∧
    (7 : Int) ∈ keysOf (defaultGetItem [(0, ⟨[("grasper", 1)], []⟩)] 7).2 := by
  exact ⟨by decide, by decide, by decide, by decide, by decide⟩

/-- Claim C5 (amended): a frame number absent from the source document is
absent from the just-built index and a lookup of it returns the empty
annotation — but, the index being a defaultdict, that lookup inserts an empty
entry for the missing frame number, so the index is not read-only under `[]`
accesses. -/
theorem c5_absent_until_lookup (doc : AnnotationDocument) (idx : AnnotationIndex)
    (k : Int) (hok : load_ground_truth doc = .ok idx)
    (habs : ∀ p ∈ doc.frames, pyParseInt p.1 ≠ some k) :
    k ∉ keysOf idx ∧ (defaultGetItem idx k).1 = emptyAnnot ∧
      k ∈ keysOf (defaultGetItem idx k).2 := by
  have hne := load_ok_nonempty doc idx hok
  rw [load_ground_truth_eq doc hne] at hok
  have hlk : lookupIdx idx k = none :=
    processAll_lookup_of_no_key doc.frames [] idx k hok habs
  refine ⟨?_, ?_, ?_⟩
  · rw [mem_keysOf_iff, hlk]
    simp
  · rw [defaultGetItem_fst, hlk]
    rfl
  · unfold defaultGetItem
    rw [hlk]
    simp [keysOf]

/-- Witness for the amended C5 at a concrete document and the absent frame
number 7. -/
theorem c5_absent_until_lookup_witness :
    (7 : Int) ∉ keysOf [((0 : Int), FrameAnnot.mk [("grasper", 1)] [])] ∧
    (defaultGetItem [((0 : Int), FrameAnnot.mk [("grasper", 1)] [])] 7).1 =
      emptyAnnot ∧
    (7 : Int) ∈ keysOf
      (defaultGetItem [((0 : Int), FrameAnnot.mk [("grasper", 1)] [])] 7).2 :=
  c5_absent_until_lookup ⟨[("0", ⟨some [("grasper", 1)], none⟩)]⟩
    [((0 : Int), FrameAnnot.mk [("grasper", 1)] [])] 7 (by decide) (by decide)

/-- Claim C6: at the I/O boundary, a missing annotation file yields the
`FileNotFoundError`-equivalent and malformed JSON content yields the parse
error; in both cases the error is what the caller receives — no retry, no
recovery, no default or empty index is substituted. -/
theorem c6_io_errors_propagate (file : Option (Except String AnnotationDocument)) :
    (file = none → load_ground_truth_io file = .error .fileNotFound) ∧
    ∀ m : String, file = some (.error m) →
      load_ground_truth_io file = .error .jsonParseError := by
  constructor
  · rintro rfl
    rfl
  · rintro m rfl
    rfl

/-- Witness for C6: the missing file and a malformed-JSON file, concretely. -/
theorem c6_io_errors_witness :
    load_ground_truth_io none = .error .fileNotFound ∧
    load_ground_truth_io (some (.error "bad json")) = .error .jsonParseError :=
  ⟨(c6_io_errors_propagate none).1 rfl,
    (c6_io_errors_propagate (some (.error "bad json"))).2 "bad json" rfl⟩

/-- Claim C7: index construction is a pure function of the input document —
two documents with the same frames build to the same result, and building
twice from the same document yields equal indices (the sequential pair of the
two builds has equal components). -/
theorem c7_pure_construction (d1 d2 : AnnotationDocument) (h : d1.frames = d2.frames) :
    load_ground_truth d1 = load_ground_truth d2 ∧
    (load_ground_truth d1, load_ground_truth d1).1 =
      (load_ground_truth d1, load_ground_truth d1).2 := by
  cases d1
  cases d2
  cases h
  exact ⟨rfl, rfl⟩

/-- Witness for C7 at a concrete document built twice. -/
theorem c7_pure_construction_witness :
    load_ground_truth ⟨[("0", ⟨some [("grasper", 1)], none⟩)]⟩ =
      load_ground_truth ⟨[("0", ⟨some [("grasper", 1)], none⟩)]⟩ ∧
    (load_ground_truth ⟨[("0", ⟨some [("grasper", 1)], none⟩)]⟩,
        load_ground_truth ⟨[("0", ⟨some [("grasper", 1)], none⟩)]⟩).1 =
      (load_ground_truth ⟨[("0", ⟨some [("grasper", 1)], none⟩)]⟩,
        load_ground_truth ⟨[("0", ⟨some [("grasper", 1)], none⟩)]⟩).2 :=
  c7_pure_construction ⟨[("0", ⟨some [("grasper", 1)], none⟩)]⟩
    ⟨[("0", ⟨some [("grasper", 1)], none⟩)]⟩ rfl

/-- Claim C8: building video B's index after a failed build for video A gives
exactly the index built for video B alone — the sequential pair of the two
independent builds has the stand-alone result for B in its second component,
whatever error A produced. -/
theorem c8_cross_video_isolation (fa fb : Option (Except String AnnotationDocument))
    (_h : ∃ e, load_ground_truth_io fa = .error e) :
    (load_ground_truth_io fa, load_ground_truth_io fb).2 =
      load_ground_truth_io fb := rfl

/-- Witness for C8: video A's file is missing, video B's file is fine. -/
theorem c8_cross_video_isolation_witness :
    (load_ground_truth_io none,
        load_ground_truth_io (some (.ok ⟨[("0", ⟨some [("grasper", 1)], none⟩)]⟩))).2 =
      load_ground_truth_io (some (.ok ⟨[("0", ⟨some [("grasper", 1)], none⟩)]⟩)) :=
  c8_cross_video_isolation none
    (some (.ok ⟨[("0", ⟨some [("grasper", 1)], none⟩)]⟩)) ⟨.fileNotFound, rfl⟩

/-- Claim C9: a well-formed document with zero frames makes `load_ground_truth`
raise (the `IndexError` from sampling `list(frames.items())[0]`) instead of
returning an empty index. -/
theorem c9_empty_frames_raises (doc : AnnotationDocument) (h : doc.frames = []) :
    load_ground_truth doc = .error .indexError := by
  unfold load_ground_truth
  rw [h]
  rfl

/-- Witness for C9 at the empty document. -/
theorem c9_empty_frames_witness :
    load_ground_truth ⟨[]⟩ = .error .indexError :=
  c9_empty_frames_raises ⟨[]⟩ rfl

/-- Claim C10: every instrument and verb name stored in any frame entry of a
successfully built index is mapped to the constant value 1 — the raw presence
magnitudes of the source document are discarded. -/
theorem c10_values_constant_one (doc : AnnotationDocument) (idx : AnnotationIndex)
    (hok : load_ground_truth doc = .ok idx) :
    ∀ q ∈ idx, (∀ r ∈ q.2.instruments, r.2 = 1) ∧ ∀ r ∈ q.2.verbs, r.2 = 1 := by
  have hne := load_ok_nonempty doc idx hok
  rw [load_ground_truth_eq doc hne] at hok
  exact processAll_ones doc.frames [] idx (by simp) hok

/-- Witness for C10 at a document with presence values 3 and 2: the stored
entries both carry the constant 1. -/
theorem c10_values_constant_one_witness :
    (("grasper", (1 : Int)).2 = 1) ∧ (("cut", (1 : Int)).2 = 1) := by
  have h := c10_values_constant_one
    ⟨[("0", ⟨some [("grasper", 3)], some [("cut", 2)]⟩)]⟩
    [((0 : Int), FrameAnnot.mk [("grasper", 1)] [("cut", 1)])] (by decide)
  exact ⟨(h ((0 : Int), FrameAnnot.mk [("grasper", 1)] [("cut", 1)]) (by simp)).1
      ("grasper", 1) (by simp),
    (h ((0 : Int), FrameAnnot.mk [("grasper", 1)] [("cut", 1)]) (by simp)).2
      ("cut", 1) (by simp)⟩
